import Mathlib

/-!
# Verification of the sync_clip real-time clipboard sync subsystem

Shallow embedding of the parts of the `sync_clip` repository that the
specified claims are about:

* the web client's WebSocket reconnection controller and message handler
  (`web-client/src/contexts/WebSocketContext.tsx`);
* the client's auth provider `logout` (`AuthContext` in the same file);
* the client-side base64 helpers of `EncryptionService`
  (`arrayBufferToBase64` / `base64ToArrayBuffer`);
* the PostgreSQL cleanup trigger `cleanup_old_clipboard_items`;
* the server-side Connection Registry, Broadcast Dispatcher and
  Fingerprint Deduplicator.  The Python backend implementing these is not
  part of the source tree (only its API documentation is), so these three
  are modelled from the specification's contracts, as marked on each
  definition.
-/

namespace SyncClip

/-! ## Client reconnection controller (WebSocketContext.tsx)

The `connect` function installs `ws.onopen`, `ws.onmessage` and
`ws.onclose` handlers.  The relevant state is the React refs/state:
`isConnected`, `reconnectAttempts` (a ref, starting at 0) and the pending
reconnect timeout.  `isAuthenticated` comes from the auth context and is
read by the close handler.  The close handler receives a CloseEvent whose
code/reason it never reads. -/

/-- Close causes distinguished by the spec's wire contract (§6). -/
inductive CloseCause
  | normal
  | authFailure
  | heartbeatTimeout
  | serverShutdown
deriving DecidableEq, Repr

/-- `Math.min(1000 * Math.pow(2, reconnectAttempts.current), 30000)`
from `ws.onclose` in WebSocketContext.tsx. -/
def reconnectDelay (attempt : Nat) : Nat :=
  min (1000 * 2 ^ attempt) 30000

/-- Client-side connection state: `isAuthenticated` from the auth context,
`isConnected` React state, `reconnectAttempts.current` ref, and the pending
reconnect timer (`reconnectTimeoutRef`), recorded as the delay it was
scheduled with. -/
structure ClientState where
  isAuthenticated : Bool
  isConnected : Bool
  reconnectAttempts : Nat
  pendingReconnect : Option Nat
deriving DecidableEq, Repr

/-- `ws.onopen`: sets `isConnected` to true and resets
`reconnectAttempts.current` to 0. -/
def onOpen (s : ClientState) : ClientState :=
  { s with isConnected := true, reconnectAttempts := 0 }

/-- `ws.onclose`: sets `isConnected` to false and, when
`isAuthenticated && reconnectAttempts.current < 10`, schedules a reconnect
after `reconnectDelay`.  The handler takes no argument in the source
(`ws.onclose = () => {...}`), so the close cause is ignored; it is made
explicit here to state cause-(in)dependence. -/
def onClose (s : ClientState) (_cause : CloseCause) : ClientState :=
  let s' := { s with isConnected := false }
  if s'.isAuthenticated && decide (s'.reconnectAttempts < 10) then
    { s' with pendingReconnect := some (reconnectDelay s'.reconnectAttempts) }
  else
    s'

/-- The reconnect timer firing: `reconnectAttempts.current++` then
`connect()`. -/
def onReconnectTimer (s : ClientState) : ClientState :=
  { s with reconnectAttempts := s.reconnectAttempts + 1,
           pendingReconnect := none }

/-! ## Client message handler (`ws.onmessage` in WebSocketContext.tsx) -/

/-- The fields of a `clipboard_update` message's `data`, as the client
declares them (interface `ClipboardUpdate`). -/
structure ClipboardUpdate where
  item_id : String
  encrypted_content : String
  iv : String
  content_hash : String
  content_type : String
  device_id : String
  created_at : String
deriving DecidableEq, Repr

/-- A parsed server→client message, by its `type` tag. -/
inductive ServerMessage
  | clipboard_update (data : ClipboardUpdate)
  | ping (timestamp : String)
  | connected (data : String)
  | other
deriving DecidableEq, Repr

/-- Client→server messages.  The only one the handler sends is
`{ type: 'pong', timestamp: message.timestamp }`. -/
inductive ClientMessage
  | pong (timestamp : String)
deriving DecidableEq, Repr

/-- `ws.onmessage`: the outbound message (if any) the handler sends in
response to a parsed server message.  Only `ping` produces a reply;
`clipboard_update` updates local state and the system clipboard,
`connected` only logs. -/
def onMessage : ServerMessage → Option ClientMessage
  | .ping ts => some (.pong ts)
  | _ => none

/-! ## Auth provider logout (AuthContext in WebSocketContext.tsx)

`localStorage` is modelled as an association list from keys to values;
`window.localStorage` keeps at most one value per key, which the `getItem`
model (first match) respects without needing to assume it. -/

/-- A localStorage snapshot: key/value pairs. -/
abbrev LocalStorage := List (String × String)

/-- `localStorage.getItem(key)`: the stored value, or `null`. -/
def getItem (ls : LocalStorage) (k : String) : Option String :=
  (List.find? (fun p => p.1 == k) ls).map (·.2)

/-- `localStorage.removeItem(key)`. -/
def removeItem (ls : LocalStorage) (k : String) : LocalStorage :=
  List.filter (fun p => !(p.1 == k)) ls

/-- The AuthProvider's in-memory React state. -/
structure AuthState where
  user : Option String
  deviceId : Option String
  isAuthenticated : Bool
deriving DecidableEq, Repr

/-- `logout` in AuthContext: removes `access_token`, `user_id` and
`device_id` from localStorage (deliberately NOT the encryption key — the
call to `EncryptionService.clearKey()` is commented out) and clears the
in-memory auth state. -/
def logout (ls : LocalStorage) (_st : AuthState) : LocalStorage × AuthState :=
  (removeItem (removeItem (removeItem ls "access_token") "user_id") "device_id",
    ⟨none, none, false⟩)

/-! ## Fingerprint Deduplicator (server side)

The FastAPI backend implementing the deduplicator is not part of the
source tree; only its API documentation is ("Deduplicates based on
content_hash (within 1 minute window)").  The definitions below are
modelled from the spec. -/

/-- Modelled from the spec: the retention horizon of the
FingerprintWindow, "default 60 seconds" (§3), matching the API
documentation's "1 minute window".  Time is in seconds. -/
def dedupHorizon : Nat := 60

/-- Modelled from the spec: the FingerprintWindow, a "mapping from
(UserIdentity, fingerprint) to last-seen timestamp" (§3). -/
abbrev FingerprintWindow := List ((String × String) × Nat)

/-- Modelled from the spec: look up the last-seen timestamp recorded for
(user, fingerprint). -/
def lookupFP (w : FingerprintWindow) (u f : String) : Option Nat :=
  (List.find? (fun e => e.1.1 == u && e.1.2 == f) w).map (·.2)

/-- Modelled from the spec: record (user, fingerprint, now), replacing any
previous entry for the same key. -/
def recordFP (w : FingerprintWindow) (u f : String) (now : Nat) :
    FingerprintWindow :=
  ((u, f), now) :: List.filter (fun e => !(e.1.1 == u && e.1.2 == f)) w

/-- Modelled from the spec: `shouldAccept(user, fingerprint, now) -> bool`,
the Fingerprint Deduplicator of §4.2, whose server implementation is
missing from the source tree.  "Returns false (reject as duplicate) if an
entry for (user, fingerprint) exists with timestamp within the retention
horizon of `now`; otherwise records (user, fingerprint, now) and returns
true."  Entries older than the horizon are ignored on lookup (lazy
eviction). -/
def shouldAccept (w : FingerprintWindow) (u f : String) (now : Nat) :
    Bool × FingerprintWindow :=
  match lookupFP w u f with
  | some t =>
      if now - t < dedupHorizon then (false, w)
      else (true, recordFP w u f now)
  | none => (true, recordFP w u f now)

/-! ## Connection Registry and Broadcast Dispatcher (server side)

The FastAPI backend implementing the WebSocket connection manager is not
part of the source tree; the definitions below are modelled from the
spec's contracts (§3, §4.1, §4.3). -/

/-- Modelled from the spec: a DeviceConnection (§3) — device identifier,
transport handle (an opaque id here), connected-since and last-heartbeat
timestamps. -/
structure DeviceConnection where
  deviceId : String
  transport : Nat
  connectedSince : Nat
  lastHeartbeat : Nat
deriving DecidableEq, Repr

/-- Modelled from the spec: the RegistrySet (§3), a mapping from user to
connections keyed by device identifier, here as an association list of
(user, connection) entries. -/
abbrev Registry := List (String × DeviceConnection)

/-- The (user, deviceId) key of each registry entry. -/
def registryKeys (reg : Registry) : List (String × String) :=
  reg.map (fun e => (e.1, e.2.deviceId))

/-- The transport handles present in the registry. -/
def registryTransports (reg : Registry) : List Nat :=
  reg.map (fun e => e.2.transport)

/-- Modelled from the spec: `register(user, connection)` (§4.1) —
"inserts/replaces the connection keyed by (user, device id).  If a
connection with the same device id already exists, the registry reports
'replaced'" (returned here as the superseded transport handle, which the
caller must close). -/
def register (reg : Registry) (user : String) (c : DeviceConnection) :
    Registry × Option Nat :=
  match List.find? (fun e => e.1 == user && e.2.deviceId == c.deviceId) reg with
  | some old =>
      ((user, c) ::
        List.filter (fun e => !(e.1 == user && e.2.deviceId == c.deviceId)) reg,
        some old.2.transport)
  | none => ((user, c) :: reg, none)

/-- Modelled from the spec: `unregister(user, deviceId)` (§4.1) — removes
the entry if present; no-op if absent. -/
def unregister (reg : Registry) (user deviceId : String) : Registry :=
  List.filter (fun e => !(e.1 == user && e.2.deviceId == deviceId)) reg

/-- Modelled from the spec: `listLive(user)` (§4.1) — a snapshot of all
connections currently registered for that user. -/
def listLive (reg : Registry) (user : String) : List DeviceConnection :=
  (List.filter (fun e => e.1 == user) reg).map (·.2)

/-- The ClipboardEvent payload (§3) as broadcast in a `clipboard_update`
message. -/
structure ClipboardEvent where
  itemId : String
  encryptedContent : String
  iv : String
  contentHash : String
  contentType : String
  deviceId : String
  createdAt : String
deriving DecidableEq, Repr

/-- One delivery attempt made by the dispatcher: the target connection
(device id and transport) and the event written to it. -/
structure Delivery where
  deviceId : String
  transport : Nat
  event : ClipboardEvent
deriving DecidableEq, Repr

/-- Modelled from the spec: `publish(user, event, originDeviceId?)` (§4.3)
— takes a snapshot from the Registry (`listLive`) and attempts delivery to
every connection whose device id is not the excluded origin; the default
(`none`) broadcasts to all devices including the origin. -/
def publish (reg : Registry) (user : String) (ev : ClipboardEvent)
    (originDeviceId : Option String) : List Delivery :=
  (listLive reg user).filterMap (fun c =>
    if originDeviceId == some c.deviceId then none
    else some ⟨c.deviceId, c.transport, ev⟩)

/-! ## Base64 helpers of EncryptionService

`arrayBufferToBase64` turns the buffer's bytes into a latin-1 string via
`String.fromCharCode` and applies `btoa`; `base64ToArrayBuffer` applies
`atob` and reads the bytes back via `charCodeAt`.  A byte buffer is a list
of byte values (`Nat < 256`), and `btoa`/`atob` are RFC 4648 base64 with
`=` padding, processed three bytes / four characters at a time. -/

/-- The base64 alphabet used by `btoa`/`atob`. -/
def base64Alphabet : List Char :=
  "ABCDEFGHIJKLMNOPQRSTUVWXYZabcdefghijklmnopqrstuvwxyz0123456789+/".toList

/-- The alphabet character for a sextet value. -/
def b64Char (n : Nat) : Char := base64Alphabet.getD n '='

/-- The sextet value of an alphabet character. -/
def b64Index (c : Char) : Nat := base64Alphabet.indexOf c

/-- `EncryptionService.arrayBufferToBase64`: base64-encode the buffer's
bytes (`btoa` applied to the byte string), three bytes to four output
characters, `=`-padded. -/
def arrayBufferToBase64 : List Nat → List Char
  | [] => []
  | [a] =>
      [b64Char (a / 4), b64Char (a % 4 * 16), '=', '=']
  | [a, b] =>
      [b64Char (a / 4), b64Char (a % 4 * 16 + b / 16),
       b64Char (b % 16 * 4), '=']
  | a :: b :: c :: rest =>
      b64Char (a / 4) :: b64Char (a % 4 * 16 + b / 16) ::
      b64Char (b % 16 * 4 + c / 64) :: b64Char (c % 64) ::
      arrayBufferToBase64 rest

/-- `EncryptionService.base64ToArrayBuffer`: decode (`atob` plus
`charCodeAt` per character), four characters to three bytes, with `=`
padding yielding one or two bytes in the final group. -/
def base64ToArrayBuffer : List Char → List Nat
  | c0 :: c1 :: c2 :: c3 :: rest =>
      if c2 = '=' then
        [b64Index c0 * 4 + b64Index c1 / 16]
      else if c3 = '=' then
        [b64Index c0 * 4 + b64Index c1 / 16,
         b64Index c1 % 16 * 16 + b64Index c2 / 4]
      else
        (b64Index c0 * 4 + b64Index c1 / 16) ::
        (b64Index c1 % 16 * 16 + b64Index c2 / 4) ::
        (b64Index c2 % 4 * 64 + b64Index c3) ::
        base64ToArrayBuffer rest
  | _ => []

/-! ## clipboard_items cleanup trigger (database initialization script)

`cleanup_old_clipboard_items` runs AFTER INSERT FOR EACH ROW on
`clipboard_items`, deleting the inserting user's rows whose id is not in
`SELECT id ... WHERE user_id = NEW.user_id ORDER BY created_at DESC LIMIT
20`.  SQL leaves the relative order of equal `created_at` values
unspecified; the embedding fixes one admissible order (a stable sort),
and the proved properties do not depend on the tie order. -/

/-- A row of the clipboard_items table (the columns the trigger reads). -/
structure ClipboardRow where
  id : Nat
  user_id : Nat
  created_at : Int
deriving DecidableEq, Repr

/-- `ORDER BY created_at DESC`: a row sorts no later than another when its
`created_at` is at least the other's. -/
def newerFirst (a b : ClipboardRow) : Prop :=
  b.created_at ≤ a.created_at

instance : DecidableRel newerFirst :=
  fun a b => inferInstanceAs (Decidable (b.created_at ≤ a.created_at))

instance : IsTotal ClipboardRow newerFirst :=
  ⟨fun a b => le_total b.created_at a.created_at⟩

instance : IsTrans ClipboardRow newerFirst :=
  ⟨fun _ _ _ hab hbc => le_trans hbc hab⟩

/-- The trigger's subselect: the ids of the user's 20 most recent rows by
`created_at`. -/
def top20Ids (tbl : List ClipboardRow) (u : Nat) : List Nat :=
  ((List.insertionSort newerFirst
      (tbl.filter (fun r => r.user_id == u))).take 20).map (fun r => r.id)

/-- The trigger body: `DELETE FROM clipboard_items WHERE user_id =
NEW.user_id AND id NOT IN (top 20)` — a row survives when it belongs to a
different user or its id is among the top 20. -/
def cleanup_old_clipboard_items (tbl : List ClipboardRow) (u : Nat) :
    List ClipboardRow :=
  tbl.filter (fun r => !(r.user_id == u) || decide (r.id ∈ top20Ids tbl u))

/-- An INSERT of `row` followed by the AFTER INSERT trigger, which runs on
the post-insert table with `NEW.user_id = row.user_id`. -/
def insertClipboardItem (tbl : List ClipboardRow) (row : ClipboardRow) :
    List ClipboardRow :=
  cleanup_old_clipboard_items (row :: tbl) row.user_id

end SyncClip

namespace SyncClip

/-- C2 claim restated on small inputs. -/
example : (List.range 7).map reconnectDelay =
    [1000, 2000, 4000, 8000, 16000, 30000, 30000] := by decide

/-- **C2.** For every consecutive-failure count `attempt` starting at 0, the
client's reconnect delay equals `min(1000 * 2^attempt, 30000)` milliseconds —
this is the delay `ws.onclose` schedules the reconnect with — so attempts
0..6 yield 1000, 2000, 4000, 8000, 16000, 30000, 30000 ms. -/
theorem c2_reconnect_backoff (s : ClientState) (cause : CloseCause)
    (hauth : s.isAuthenticated = true) (hlt : s.reconnectAttempts < 10) :
    (onClose s cause).pendingReconnect =
      some (min (1000 * 2 ^ s.reconnectAttempts) 30000) ∧
    (List.range 7).map reconnectDelay =
      [1000, 2000, 4000, 8000, 16000, 30000, 30000] := by
  refine ⟨?_, by decide⟩
  simp [onClose, hauth, hlt, reconnectDelay]

theorem c2_reconnect_backoff_witness :
    (⟨true, true, 5, none⟩ : ClientState).isAuthenticated = true ∧
    (⟨true, true, 5, none⟩ : ClientState).reconnectAttempts < 10 ∧
    ((onClose (⟨true, true, 5, none⟩ : ClientState)
        CloseCause.normal).pendingReconnect = some (min (1000 * 2 ^ 5) 30000) ∧
      (List.range 7).map reconnectDelay =
        [1000, 2000, 4000, 8000, 16000, 30000, 30000]) :=
  ⟨rfl, by decide,
    c2_reconnect_backoff (⟨true, true, 5, none⟩ : ClientState)
      CloseCause.normal rfl (by decide)⟩

/-- **C3 counterexample.** The claim says an authentication-failure close is
non-retriable, but `ws.onclose` never reads the close event: on an
authentication-failure close of an authenticated client with 0 prior
attempts, a reconnect IS scheduled (after 1000 ms). -/
theorem c3_counterexample :
    (onClose (⟨true, true, 0, none⟩ : ClientState)
        CloseCause.authFailure).pendingReconnect = some 1000 := by
  decide

/-- **C3 (amended).** The close handler does not inspect the close cause at
all: `onClose` produces the same state for every cause (authentication
failure included), and a reconnect is scheduled exactly when the client's
auth state is authenticated and fewer than 10 consecutive attempts have
occurred; otherwise the close only clears `isConnected`. -/
theorem c3_close_retry_ignores_cause (s : ClientState) (c c' : CloseCause) :
    onClose s c = onClose s c' ∧
    (s.isAuthenticated = true ∧ s.reconnectAttempts < 10 →
      (onClose s c).pendingReconnect =
        some (reconnectDelay s.reconnectAttempts)) ∧
    (¬ (s.isAuthenticated = true ∧ s.reconnectAttempts < 10) →
      onClose s c = { s with isConnected := false }) := by
  refine ⟨rfl, fun h => ?_, fun h => ?_⟩
  · simp [onClose, h.1, h.2]
  · rcases Decidable.not_and_iff_or_not.mp h with h' | h' <;>
      simp [onClose, h', Bool.not_eq_true] at *

theorem c3_close_retry_ignores_cause_witness :
    ((⟨true, true, 3, none⟩ : ClientState).isAuthenticated = true ∧
      (⟨true, true, 3, none⟩ : ClientState).reconnectAttempts < 10) ∧
    (onClose (⟨true, true, 3, none⟩ : ClientState)
        CloseCause.heartbeatTimeout).pendingReconnect =
      some (reconnectDelay 3) :=
  ⟨⟨rfl, by decide⟩,
    (c3_close_retry_ignores_cause (⟨true, true, 3, none⟩ : ClientState)
      CloseCause.heartbeatTimeout CloseCause.normal).2.1 ⟨rfl, by decide⟩⟩

/-- **C4.** The consecutive reconnect-attempt counter is reset to 0 on every
successful open, and once the counter has reached 10 a close schedules no
further reconnect: with no timer pending, the state stays disconnected with
no pending reconnect. -/
theorem c4_attempt_ceiling (s : ClientState) (cause : CloseCause)
    (h10 : 10 ≤ s.reconnectAttempts) (hp : s.pendingReconnect = none) :
    (onOpen s).reconnectAttempts = 0 ∧
    (onClose s cause).pendingReconnect = none ∧
    (onClose s cause).isConnected = false := by
  refine ⟨rfl, ?_, ?_⟩ <;>
    simp [onClose, Nat.not_lt.mpr h10, hp]

theorem c4_attempt_ceiling_witness :
    (10 ≤ (⟨true, false, 10, none⟩ : ClientState).reconnectAttempts ∧
      (⟨true, false, 10, none⟩ : ClientState).pendingReconnect = none) ∧
    ((onOpen (⟨true, false, 10, none⟩ : ClientState)).reconnectAttempts = 0 ∧
      (onClose (⟨true, false, 10, none⟩ : ClientState)
          CloseCause.serverShutdown).pendingReconnect = none ∧
      (onClose (⟨true, false, 10, none⟩ : ClientState)
          CloseCause.serverShutdown).isConnected = false) :=
  ⟨⟨by decide, rfl⟩,
    c4_attempt_ceiling (⟨true, false, 10, none⟩ : ClientState)
      CloseCause.serverShutdown (by decide) rfl⟩

/-- **C5.** Whenever the client receives a server message of type `ping`
carrying a timestamp, it sends back a `pong` carrying that same timestamp;
no other inbound message type produces an outbound reply. -/
theorem c5_ping_pong (ts : String) :
    onMessage (ServerMessage.ping ts) = some (ClientMessage.pong ts) ∧
    ∀ m : ServerMessage, (∀ ts', m ≠ ServerMessage.ping ts') →
      onMessage m = none := by
  refine ⟨rfl, fun m hm => ?_⟩
  cases m with
  | ping ts' => exact absurd rfl (hm ts')
  | clipboard_update d => rfl
  | connected d => rfl
  | other => rfl

theorem getItem_cons (p : String × String) (ls : LocalStorage) (k : String) :
    getItem (p :: ls) k = if p.1 = k then some p.2 else getItem ls k := by
  by_cases hk : p.1 = k <;> simp [getItem, List.find?_cons, hk]

theorem removeItem_cons (p : String × String) (ls : LocalStorage)
    (k : String) :
    removeItem (p :: ls) k =
      if p.1 = k then removeItem ls k else p :: removeItem ls k := by
  by_cases hk : p.1 = k <;> simp [removeItem, List.filter_cons, hk]

theorem getItem_removeItem_self (ls : LocalStorage) (k : String) :
    getItem (removeItem ls k) k = none := by
  induction ls with
  | nil => rfl
  | cons p ls ih =>
    rw [removeItem_cons]
    by_cases hpk : p.1 = k
    · simpa [hpk] using ih
    · simp [hpk, getItem_cons, ih]

theorem getItem_removeItem_ne (ls : LocalStorage) (k k' : String)
    (h : k ≠ k') : getItem (removeItem ls k') k = getItem ls k := by
  induction ls with
  | nil => rfl
  | cons p ls ih =>
    rw [removeItem_cons, getItem_cons]
    by_cases hpk : p.1 = k'
    · have hk : ¬ p.1 = k := by rw [hpk]; exact Ne.symm h
      simp [hpk, hk, ih, Ne.symm h]
    · by_cases hk : p.1 = k
      · simp [hpk, hk, h, getItem_cons]
      · simp [hpk, hk, h, getItem_cons, ih]

/-- **C8.** `logout` removes the access token, user id and device id from
localStorage and clears the in-memory auth state, while `encryption_key`
(and every other key) is left unchanged, so previously synced items remain
decryptable after a later login. -/
theorem c8_logout_preserves_encryption_key (ls : LocalStorage)
    (st : AuthState) :
    getItem (logout ls st).1 "access_token" = none ∧
    getItem (logout ls st).1 "user_id" = none ∧
    getItem (logout ls st).1 "device_id" = none ∧
    getItem (logout ls st).1 "encryption_key" = getItem ls "encryption_key" ∧
    (∀ k, k ≠ "access_token" → k ≠ "user_id" → k ≠ "device_id" →
      getItem (logout ls st).1 k = getItem ls k) ∧
    (logout ls st).2 = ⟨none, none, false⟩ := by
  have frame : ∀ k, k ≠ "access_token" → k ≠ "user_id" → k ≠ "device_id" →
      getItem (logout ls st).1 k = getItem ls k := by
    intro k h1 h2 h3
    unfold logout
    rw [getItem_removeItem_ne _ _ _ h3, getItem_removeItem_ne _ _ _ h2,
      getItem_removeItem_ne _ _ _ h1]
  refine ⟨?_, ?_, ?_, frame "encryption_key" (by decide) (by decide)
    (by decide), frame, rfl⟩
  · unfold logout
    rw [getItem_removeItem_ne _ _ _ (by decide),
      getItem_removeItem_ne _ _ _ (by decide), getItem_removeItem_self]
  · unfold logout
    rw [getItem_removeItem_ne _ _ _ (by decide), getItem_removeItem_self]
  · unfold logout
    rw [getItem_removeItem_self]

theorem c8_logout_preserves_encryption_key_witness :
    getItem (logout [("access_token", "tok"), ("user_id", "u1"),
        ("device_id", "d1"), ("encryption_key", "jwk")]
        ⟨some "u1", some "d1", true⟩).1 "access_token" = none ∧
    getItem (logout [("access_token", "tok"), ("user_id", "u1"),
        ("device_id", "d1"), ("encryption_key", "jwk")]
        ⟨some "u1", some "d1", true⟩).1 "encryption_key" =
      getItem [("access_token", "tok"), ("user_id", "u1"),
        ("device_id", "d1"), ("encryption_key", "jwk")] "encryption_key" :=
  ⟨(c8_logout_preserves_encryption_key [("access_token", "tok"),
      ("user_id", "u1"), ("device_id", "d1"), ("encryption_key", "jwk")]
      ⟨some "u1", some "d1", true⟩).1,
    (c8_logout_preserves_encryption_key [("access_token", "tok"),
      ("user_id", "u1"), ("device_id", "d1"), ("encryption_key", "jwk")]
      ⟨some "u1", some "d1", true⟩).2.2.2.2.1 "encryption_key"
      (by decide) (by decide) (by decide)⟩

theorem lookupFP_recordFP (w : FingerprintWindow) (u f : String) (t : Nat) :
    lookupFP (recordFP w u f t) u f = some t := by
  simp [lookupFP, recordFP, List.find?_cons]

theorem shouldAccept_lookup_some (w : FingerprintWindow) (u f : String)
    (now t : Nat) (hl : lookupFP w u f = some t) :
    shouldAccept w u f now =
      if now - t < dedupHorizon then (false, w)
      else (true, recordFP w u f now) := by
  unfold shouldAccept
  rw [hl]

theorem shouldAccept_lookup_none (w : FingerprintWindow) (u f : String)
    (now : Nat) (hl : lookupFP w u f = none) :
    shouldAccept w u f now = (true, recordFP w u f now) := by
  unfold shouldAccept
  rw [hl]

theorem shouldAccept_accepted_state (w : FingerprintWindow) (u f : String)
    (T : Nat) (hacc : (shouldAccept w u f T).1 = true) :
    (shouldAccept w u f T).2 = recordFP w u f T := by
  cases hl : lookupFP w u f with
  | none => rw [shouldAccept_lookup_none w u f T hl]
  | some t =>
    rw [shouldAccept_lookup_some w u f T t hl] at hacc ⊢
    by_cases ht : T - t < dedupHorizon
    · simp [ht] at hacc
    · simp [ht]

/-- **C1.** If a write with fingerprint F for user U was accepted by the
deduplicator at time T, then a call with the same (U, F) at a later time T'
is rejected (and the window unchanged) when T' − T is below the retention
horizon (60 s), and is accepted and re-recorded at timestamp T' when
T' − T is at least the horizon. -/
theorem c1_dedup_window (w : FingerprintWindow) (u f : String) (T Tp : Nat)
    (hacc : (shouldAccept w u f T).1 = true) (_hle : T ≤ Tp) :
    (Tp - T < dedupHorizon →
      shouldAccept (shouldAccept w u f T).2 u f Tp =
        (false, (shouldAccept w u f T).2)) ∧
    (dedupHorizon ≤ Tp - T →
      (shouldAccept (shouldAccept w u f T).2 u f Tp).1 = true ∧
      lookupFP (shouldAccept (shouldAccept w u f T).2 u f Tp).2 u f =
        some Tp) := by
  have hw : (shouldAccept w u f T).2 = recordFP w u f T :=
    shouldAccept_accepted_state w u f T hacc
  have hl : lookupFP (shouldAccept w u f T).2 u f = some T := by
    rw [hw]; exact lookupFP_recordFP w u f T
  rw [shouldAccept_lookup_some _ u f Tp T hl]
  constructor
  · intro hlt
    simp [hlt]
  · intro hge
    have hnlt : ¬ Tp - T < dedupHorizon := Nat.not_lt.mpr hge
    refine ⟨by simp [hnlt], ?_⟩
    rw [if_neg hnlt]
    exact lookupFP_recordFP _ u f Tp

theorem c1_dedup_window_witness :
    ((shouldAccept [] "u1" "h1" 100).1 = true ∧ 100 ≤ 110 ∧ 100 ≤ 160) ∧
    (shouldAccept (shouldAccept [] "u1" "h1" 100).2 "u1" "h1" 110 =
        (false, (shouldAccept [] "u1" "h1" 100).2)) ∧
    ((shouldAccept (shouldAccept [] "u1" "h1" 100).2 "u1" "h1" 160).1 =
        true ∧
      lookupFP (shouldAccept (shouldAccept [] "u1" "h1" 100).2 "u1" "h1"
          160).2 "u1" "h1" = some 160) :=
  ⟨⟨rfl, by decide, by decide⟩,
    (c1_dedup_window [] "u1" "h1" 100 110 rfl (by decide)).1 (by decide),
    (c1_dedup_window [] "u1" "h1" 100 160 rfl (by decide)).2 (by decide)⟩

theorem find?_eq_some_of_unique {α : Type} (p : α → Bool) (l : List α)
    (x : α) (hx : x ∈ l) (hp : p x = true)
    (huniq : ∀ y ∈ l, p y = true → y = x) : l.find? p = some x := by
  induction l with
  | nil => cases hx
  | cons a l ih =>
    by_cases ha : p a = true
    · rw [List.find?_cons_of_pos l ha]
      exact congrArg some (huniq a (List.mem_cons_self a l) ha)
    · rw [List.find?_cons_of_neg l (by simpa using ha)]
      rcases List.mem_cons.mp hx with rfl | hx'
      · exact absurd hp ha
      · exact ih hx' (fun y hy hpy => huniq y (List.mem_cons_of_mem a hy) hpy)

theorem registryKeys_register_nodup (reg : Registry) (u : String)
    (c : DeviceConnection) (h : (registryKeys reg).Nodup) :
    (registryKeys (register reg u c).1).Nodup := by
  unfold register
  cases hf : List.find? (fun e => e.1 == u && e.2.deviceId == c.deviceId) reg
      with
  | none =>
    have hmem : (u, c.deviceId) ∉ registryKeys reg := by
      intro hmem
      rcases List.mem_map.mp hmem with ⟨e, he, hkey⟩
      have := List.find?_eq_none.mp hf e he
      simp only [Bool.and_eq_true, beq_iff_eq] at this
      exact this ⟨congrArg Prod.fst hkey, congrArg Prod.snd hkey⟩
    simpa [registryKeys] using List.Nodup.cons hmem h
  | some old =>
    have hsub : List.Sublist
        (List.filter (fun e => !(e.1 == u && e.2.deviceId == c.deviceId)) reg)
        reg := List.filter_sublist reg
    have htail : (registryKeys (List.filter
        (fun e => !(e.1 == u && e.2.deviceId == c.deviceId)) reg)).Nodup :=
      h.sublist (hsub.map _)
    have hhead : (u, c.deviceId) ∉ registryKeys (List.filter
        (fun e => !(e.1 == u && e.2.deviceId == c.deviceId)) reg) := by
      intro hmem
      rcases List.mem_map.mp hmem with ⟨e, he, hkey⟩
      have hne := (List.mem_filter.mp he).2
      simp only [Bool.not_eq_true', Bool.and_eq_false_iff, beq_eq_false_iff_ne,
        ne_eq] at hne
      rcases hne with hne | hne
      · exact hne (congrArg Prod.fst hkey)
      · exact hne (congrArg Prod.snd hkey)
    simpa [registryKeys] using List.Nodup.cons hhead htail

/-- **C6.** For every sequence of `register` calls with the same
(user, deviceId), the Connection Registry holds at most one entry for that
key at any instant (`register` preserves key uniqueness), and the
previously-registered transport is closed exactly once: the replacing call
reports exactly the superseded entry's transport handle, and that handle is
no longer present in the registry afterwards, so no later call can report
it again. -/
theorem c6_register_unique_and_close_once (reg : Registry) (u : String)
    (c old : DeviceConnection)
    (hkeys : (registryKeys reg).Nodup)
    (htr : (registryTransports reg).Nodup)
    (hmem : (u, old) ∈ reg) (hdev : old.deviceId = c.deviceId)
    (hfresh : c.transport ∉ registryTransports reg) :
    (∀ (reg' : Registry) (u' : String) (c' : DeviceConnection),
        (registryKeys reg').Nodup →
        (registryKeys (register reg' u' c').1).Nodup) ∧
    (register reg u c).2 = some old.transport ∧
    old.transport ∉ registryTransports (register reg u c).1 := by
  have hfind : List.find? (fun e => e.1 == u && e.2.deviceId == c.deviceId)
      reg = some (u, old) := by
    apply find?_eq_some_of_unique _ _ _ hmem
    · simp [hdev]
    · intro y hy hpy
      simp only [Bool.and_eq_true, beq_iff_eq] at hpy
      have hkey : (fun e : String × DeviceConnection =>
          (e.1, e.2.deviceId)) y = (fun e : String × DeviceConnection =>
          (e.1, e.2.deviceId)) (u, old) := by
        simp [hpy.1, hpy.2, hdev]
      exact List.inj_on_of_nodup_map hkeys hy hmem hkey
  refine ⟨fun reg' u' c' h => registryKeys_register_nodup reg' u' c' h,
    ?_, ?_⟩
  · unfold register
    rw [hfind]
  · unfold register
    rw [hfind]
    intro hin
    have hoin : old.transport ∈ registryTransports reg :=
      List.mem_map_of_mem
        (fun e : String × DeviceConnection => e.2.transport) hmem
    simp only [registryTransports, List.map_cons, List.mem_cons] at hin
    rcases hin with heq | hin
    · exact hfresh (heq ▸ hoin)
    · rcases List.mem_map.mp hin with ⟨e, he, htre⟩
      have hereg : e ∈ reg := List.mem_of_mem_filter he
      have : e = (u, old) := List.inj_on_of_nodup_map htr hereg hmem htre
      have hne := (List.mem_filter.mp he).2
      rw [this] at hne
      simp [hdev] at hne

theorem c6_register_unique_and_close_once_witness :
    ((registryKeys [("u1", ⟨"d1", 1, 0, 0⟩)]).Nodup ∧
      (registryTransports [("u1", ⟨"d1", 1, 0, 0⟩)]).Nodup ∧
      ("u1", (⟨"d1", 1, 0, 0⟩ : DeviceConnection)) ∈
        [("u1", (⟨"d1", 1, 0, 0⟩ : DeviceConnection))] ∧
      (2 : Nat) ∉ registryTransports [("u1", ⟨"d1", 1, 0, 0⟩)]) ∧
    ((register [("u1", ⟨"d1", 1, 0, 0⟩)] "u1" ⟨"d1", 2, 5, 5⟩).2 =
        some 1 ∧
      (1 : Nat) ∉ registryTransports
        (register [("u1", ⟨"d1", 1, 0, 0⟩)] "u1" ⟨"d1", 2, 5, 5⟩).1 ∧
      (registryKeys (register [] "u1" (⟨"d1", 2, 5, 5⟩ :
          DeviceConnection)).1).Nodup) :=
  ⟨⟨by decide, by decide, by decide, by decide⟩, by
    have h := c6_register_unique_and_close_once
      [("u1", ⟨"d1", 1, 0, 0⟩)] "u1" ⟨"d1", 2, 5, 5⟩ ⟨"d1", 1, 0, 0⟩
      (by decide) (by decide) (by decide) rfl (by decide)
    exact ⟨h.2.1, h.2.2, h.1 [] "u1" ⟨"d1", 2, 5, 5⟩ (by decide)⟩⟩

theorem publish_none_eq_map (reg : Registry) (u : String)
    (ev : ClipboardEvent) :
    publish reg u ev none = (listLive reg u).map
      (fun c => ⟨c.deviceId, c.transport, ev⟩) := by
  unfold publish
  induction listLive reg u with
  | nil => rfl
  | cons a l ih =>
    have hbeq : ((none : Option String) == some a.deviceId) = false := rfl
    simp only [List.filterMap_cons, List.map_cons, hbeq, Bool.false_eq_true,
      if_false, ih]

theorem listLive_deviceIds_nodup (reg : Registry) (u : String)
    (hkeys : (registryKeys reg).Nodup) :
    ((listLive reg u).map (fun c => c.deviceId)).Nodup := by
  have hsub : List.Sublist (List.filter (fun e => e.1 == u) reg) reg :=
    List.filter_sublist reg
  have hkeysf : ((List.filter (fun e => e.1 == u) reg).map
      (fun e => (e.1, e.2.deviceId))).Nodup :=
    hkeys.sublist (hsub.map _)
  have hnodupf : (List.filter (fun e => e.1 == u) reg).Nodup :=
    List.Nodup.of_map _ hkeysf
  have hinj : ∀ x ∈ List.filter (fun e => e.1 == u) reg,
      ∀ y ∈ List.filter (fun e => e.1 == u) reg,
      x.2.deviceId = y.2.deviceId → x = y := by
    intro x hx y hy hdev
    have hxu : x.1 = u := by simpa using (List.mem_filter.mp hx).2
    have hyu : y.1 = u := by simpa using (List.mem_filter.mp hy).2
    exact List.inj_on_of_nodup_map hkeysf hx hy (by rw [hxu, hyu, hdev])
  have := List.Nodup.map_on hinj hnodupf
  simpa [listLive, List.map_map, Function.comp] using this

theorem countP_map_eq_one {α β : Type} [BEq β] [LawfulBEq β] (f : α → β)
    (l : List α) (h : (l.map f).Nodup) (c : α) (hc : c ∈ l) :
    l.countP (fun x => f x == f c) = 1 := by
  induction l with
  | nil => cases hc
  | cons a l ih =>
    rw [List.map_cons, List.nodup_cons] at h
    rcases List.mem_cons.mp hc with rfl | hc'
    · rw [List.countP_cons_of_pos _ _ (by simp)]
      have hz : l.countP (fun x => f x == f c) = 0 := by
        apply List.countP_eq_zero.mpr
        intro x hx hbx
        exact h.1 ((beq_iff_eq.mp hbx) ▸ List.mem_map_of_mem f hx)
      omega
    · have hne : ¬ (f a == f c) = true := by
        intro hbe
        exact h.1 ((beq_iff_eq.mp hbe) ▸ List.mem_map_of_mem f hc')
      rw [List.countP_cons_of_neg _ _ (by simpa using hne)]
      exact ih h.2 hc'

/-- **C7.** For every user U with live device set D at the time
`publish(U, event)` is invoked (no origin exclusion, the default), the
dispatcher makes exactly one delivery attempt per member of D taken from
the registry snapshot at call time; every delivery carries the published
event and targets a snapshot member; and the result depends only on the
snapshot, so connections registered after it is taken receive nothing from
this call. -/
theorem c7_publish_exactly_once (reg : Registry) (u : String)
    (ev : ClipboardEvent) (hkeys : (registryKeys reg).Nodup) :
    (∀ c ∈ listLive reg u,
      (publish reg u ev none).countP
        (fun d => d.deviceId == c.deviceId) = 1) ∧
    (∀ d ∈ publish reg u ev none, d.event = ev ∧
      ∃ c ∈ listLive reg u, d.deviceId = c.deviceId ∧
        d.transport = c.transport) ∧
    (∀ reg' : Registry, listLive reg' u = listLive reg u →
      publish reg' u ev none = publish reg u ev none) := by
  refine ⟨?_, ?_, ?_⟩
  · intro c hc
    rw [publish_none_eq_map, List.countP_map]
    exact countP_map_eq_one (fun x => x.deviceId) (listLive reg u)
      (listLive_deviceIds_nodup reg u hkeys) c hc
  · intro d hd
    rw [publish_none_eq_map] at hd
    rcases List.mem_map.mp hd with ⟨c, hc, hdc⟩
    exact ⟨by rw [← hdc], c, hc, by rw [← hdc], by rw [← hdc]⟩
  · intro reg' h
    unfold publish
    rw [h]

theorem c7_publish_exactly_once_witness :
    (registryKeys [("u1", ⟨"dA", 1, 0, 0⟩), ("u1", ⟨"dB", 2, 0, 0⟩),
        ("u2", ⟨"dA", 3, 0, 0⟩)]).Nodup ∧
    (publish [("u1", ⟨"dA", 1, 0, 0⟩), ("u1", ⟨"dB", 2, 0, 0⟩),
        ("u2", ⟨"dA", 3, 0, 0⟩)] "u1"
        ⟨"i", "enc", "iv", "h", "text", "dA", "t"⟩ none).countP
      (fun d => d.deviceId == "dA") = 1 :=
  ⟨by decide,
    (c7_publish_exactly_once [("u1", ⟨"dA", 1, 0, 0⟩),
        ("u1", ⟨"dB", 2, 0, 0⟩), ("u2", ⟨"dA", 3, 0, 0⟩)] "u1"
        ⟨"i", "enc", "iv", "h", "text", "dA", "t"⟩ (by decide)).1
      ⟨"dA", 1, 0, 0⟩ (by decide)⟩

theorem b64Index_b64Char : ∀ n, n < 64 → b64Index (b64Char n) = n := by
  decide

theorem b64Char_ne_pad : ∀ n, n < 64 → b64Char n ≠ '=' := by
  decide

/-- **C9.** For every byte buffer (list of values < 256), decoding after
encoding is the identity:
`base64ToArrayBuffer (arrayBufferToBase64 b) = b`. -/
theorem c9_base64_roundtrip (l : List Nat) (h : ∀ x ∈ l, x < 256) :
    base64ToArrayBuffer (arrayBufferToBase64 l) = l := by
  induction l using arrayBufferToBase64.induct with
  | case1 => rfl
  | case2 a =>
    have ha : a < 256 := h a (by simp)
    simp only [arrayBufferToBase64, base64ToArrayBuffer]
    rw [if_pos trivial, b64Index_b64Char _ (by omega),
      b64Index_b64Char _ (by omega)]
    have heq : a / 4 * 4 + a % 4 * 16 / 16 = a := by omega
    rw [heq]
  | case3 a b =>
    have ha : a < 256 := h a (by simp)
    have hb : b < 256 := h b (by simp)
    simp only [arrayBufferToBase64, base64ToArrayBuffer]
    rw [if_pos trivial,
      b64Index_b64Char _ (by omega), b64Index_b64Char _ (by omega),
      b64Index_b64Char _ (by omega)]
    have h1 : a / 4 * 4 + (a % 4 * 16 + b / 16) / 16 = a := by omega
    have h2 : (a % 4 * 16 + b / 16) % 16 * 16 + b % 16 * 4 / 4 = b := by
      omega
    rw [h1, h2, if_neg (b64Char_ne_pad _ (by omega))]
  | case4 a b c rest ih =>
    have ha : a < 256 := h a (by simp)
    have hb : b < 256 := h b (by simp)
    have hc : c < 256 := h c (by simp)
    have hrest : ∀ x ∈ rest, x < 256 := fun x hx => h x (by simp [hx])
    simp only [arrayBufferToBase64, base64ToArrayBuffer]
    rw [if_neg (b64Char_ne_pad _ (by omega)),
      if_neg (b64Char_ne_pad _ (by omega)),
      b64Index_b64Char _ (by omega), b64Index_b64Char _ (by omega),
      b64Index_b64Char _ (by omega), b64Index_b64Char _ (by omega)]
    have h1 : a / 4 * 4 + (a % 4 * 16 + b / 16) / 16 = a := by omega
    have h2 : (a % 4 * 16 + b / 16) % 16 * 16 +
        (b % 16 * 4 + c / 64) / 4 = b := by omega
    have h3 : (b % 16 * 4 + c / 64) % 4 * 64 + c % 64 = c := by omega
    rw [h1, h2, h3, ih hrest]

theorem c9_base64_roundtrip_witness :
    (∀ x ∈ [0, 77, 255, 1, 128], x < 256) ∧
    base64ToArrayBuffer (arrayBufferToBase64 [0, 77, 255, 1, 128]) =
      [0, 77, 255, 1, 128] :=
  ⟨by decide, c9_base64_roundtrip [0, 77, 255, 1, 128] (by decide)⟩

theorem length_le_of_nodup_map_subset {α β : Type} (f : α → β) (l : List α)
    (s : List β) (h : (l.map f).Nodup) (hsub : ∀ x ∈ l, f x ∈ s) :
    l.length ≤ s.length := by
  have hsub' : l.map f ⊆ s := by
    intro b hb
    rcases List.mem_map.mp hb with ⟨a, ha, rfl⟩
    exact hsub a ha
  have := (List.subperm_of_subset h hsub').length_le
  simpa using this

theorem countP_user_cleanup (t : List ClipboardRow) (u : Nat)
    (keep : List Nat) :
    (t.filter (fun r => !(r.user_id == u) || decide (r.id ∈ keep))).countP
        (fun r => r.user_id == u) =
      (t.filter (fun r => (r.user_id == u) &&
        decide (r.id ∈ keep))).length := by
  induction t with
  | nil => rfl
  | cons a t ih =>
    by_cases h1 : a.user_id = u <;> by_cases h2 : a.id ∈ keep <;>
      simp [List.filter_cons, h1, h2, List.countP_cons, ih]

theorem countP_other_cleanup (t : List ClipboardRow) (u v : Nat)
    (keep : List Nat) (hvu : v ≠ u) :
    (t.filter (fun r => !(r.user_id == u) || decide (r.id ∈ keep))).countP
        (fun r => r.user_id == v) =
      t.countP (fun r => r.user_id == v) := by
  induction t with
  | nil => rfl
  | cons a t ih =>
    by_cases h3 : a.user_id = v
    · have h1 : ¬ a.user_id = u := by rw [h3]; exact hvu
      simp [List.filter_cons, h1, h3, List.countP_cons, ih, hvu]
    · by_cases h1 : a.user_id = u <;> by_cases h2 : a.id ∈ keep <;>
        simp [List.filter_cons, h1, h2, h3, List.countP_cons, ih,
          Ne.symm hvu]

theorem top20Ids_length_le (t : List ClipboardRow) (u : Nat) :
    (top20Ids t u).length ≤ 20 := by
  simp [top20Ids]

theorem cleanup_recency (t : List ClipboardRow) (u : Nat)
    (hids : (t.map (fun r => r.id)).Nodup)
    (d : ClipboardRow) (hd : d ∈ t) (hdu : d.user_id = u)
    (hdnot : d ∉ cleanup_old_clipboard_items t u)
    (k : ClipboardRow) (hk : k ∈ cleanup_old_clipboard_items t u)
    (hku : k.user_id = u) :
    d.created_at ≤ k.created_at := by
  have hdid : d.id ∉ top20Ids t u := by
    intro hmem
    exact hdnot (List.mem_filter.mpr ⟨hd, by simp [hdu, hmem]⟩)
  have hperm := List.perm_insertionSort newerFirst
    (t.filter (fun r => r.user_id == u))
  have hds : d ∈ List.insertionSort newerFirst
      (t.filter (fun r => r.user_id == u)) :=
    hperm.mem_iff.mpr (List.mem_filter.mpr ⟨hd, by simp [hdu]⟩)
  have hdtake : d ∉ (List.insertionSort newerFirst
      (t.filter (fun r => r.user_id == u))).take 20 := by
    intro hmem
    exact hdid (List.mem_map_of_mem (fun r => r.id) hmem)
  have hddrop : d ∈ (List.insertionSort newerFirst
      (t.filter (fun r => r.user_id == u))).drop 20 := by
    have hds' : d ∈ (List.insertionSort newerFirst
        (t.filter (fun r => r.user_id == u))).take 20 ++
        (List.insertionSort newerFirst
          (t.filter (fun r => r.user_id == u))).drop 20 := by
      rw [List.take_append_drop]
      exact hds
    rcases List.mem_append.mp hds' with h | h
    · exact absurd h hdtake
    · exact h
  have hkt : k ∈ t := List.mem_of_mem_filter hk
  have hkkeep : k.id ∈ top20Ids t u := by
    have hp := (List.mem_filter.mp hk).2
    simpa [hku] using hp
  have hktake : k ∈ (List.insertionSort newerFirst
      (t.filter (fun r => r.user_id == u))).take 20 := by
    rcases List.mem_map.mp hkkeep with ⟨k', hk', hkid⟩
    have hk's : k' ∈ List.insertionSort newerFirst
        (t.filter (fun r => r.user_id == u)) := List.mem_of_mem_take hk'
    have hk't : k' ∈ t := List.mem_of_mem_filter (hperm.mem_iff.mp hk's)
    have hkk : k' = k := List.inj_on_of_nodup_map hids hk't hkt hkid
    exact hkk ▸ hk'
  have hsort : List.Pairwise newerFirst (List.insertionSort newerFirst
      (t.filter (fun r => r.user_id == u))) :=
    List.sorted_insertionSort newerFirst _
  rw [← List.take_append_drop 20 (List.insertionSort newerFirst
    (t.filter (fun r => r.user_id == u)))] at hsort
  exact (List.pairwise_append.mp hsort).2.2 k hktake d hddrop

/-- **C10.** After every insert into clipboard_items, the cleanup trigger
leaves the inserting user with at most 20 rows; every deleted row of that
user is no more recent than every retained row of that user (so the 20
retained are the most recently created); rows of other users are untouched
and their counts unchanged.  Ids are assumed unique (the id column is the
primary key). -/
theorem c10_cleanup_keeps_20_most_recent (tbl : List ClipboardRow)
    (row : ClipboardRow)
    (hids : ((row :: tbl).map (fun r => r.id)).Nodup) :
    (insertClipboardItem tbl row).countP
        (fun r => r.user_id == row.user_id) ≤ 20 ∧
    (∀ d ∈ row :: tbl, d.user_id = row.user_id →
      d ∉ insertClipboardItem tbl row →
      ∀ k ∈ insertClipboardItem tbl row, k.user_id = row.user_id →
        d.created_at ≤ k.created_at) ∧
    (∀ r ∈ tbl, r.user_id ≠ row.user_id →
      r ∈ insertClipboardItem tbl row) ∧
    (∀ v, v ≠ row.user_id →
      (insertClipboardItem tbl row).countP (fun r => r.user_id == v) =
        (row :: tbl).countP (fun r => r.user_id == v)) := by
  refine ⟨?_, ?_, ?_, ?_⟩
  · unfold insertClipboardItem cleanup_old_clipboard_items
    rw [countP_user_cleanup]
    have hle := length_le_of_nodup_map_subset (fun r => r.id)
      ((row :: tbl).filter (fun r => (r.user_id == row.user_id) &&
        decide (r.id ∈ top20Ids (row :: tbl) row.user_id)))
      (top20Ids (row :: tbl) row.user_id)
      (hids.sublist ((List.filter_sublist (row :: tbl)).map _))
      (fun x hx => by
        have := (List.mem_filter.mp hx).2
        simp only [Bool.and_eq_true, decide_eq_true_eq] at this
        exact this.2)
    exact le_trans hle (top20Ids_length_le (row :: tbl) row.user_id)
  · intro d hd hdu hdnot k hk hku
    exact cleanup_recency (row :: tbl) row.user_id hids d hd hdu hdnot
      k hk hku
  · intro r hr hne
    unfold insertClipboardItem cleanup_old_clipboard_items
    exact List.mem_filter.mpr ⟨List.mem_cons_of_mem row hr, by simp [hne]⟩
  · intro v hv
    unfold insertClipboardItem cleanup_old_clipboard_items
    exact countP_other_cleanup (row :: tbl) row.user_id v
      (top20Ids (row :: tbl) row.user_id) hv

theorem c10_cleanup_keeps_20_most_recent_witness :
    (([(⟨10, 7, 100⟩ : ClipboardRow), ⟨1, 7, 50⟩, ⟨2, 8, 60⟩].map
        (fun r => r.id)).Nodup) ∧
    ((insertClipboardItem [⟨1, 7, 50⟩, ⟨2, 8, 60⟩]
        (⟨10, 7, 100⟩ : ClipboardRow)).countP
      (fun r => r.user_id == 7) ≤ 20) ∧
    ((⟨2, 8, 60⟩ : ClipboardRow) ∈
      insertClipboardItem [⟨1, 7, 50⟩, ⟨2, 8, 60⟩] ⟨10, 7, 100⟩) :=
  ⟨by decide,
    (c10_cleanup_keeps_20_most_recent [⟨1, 7, 50⟩, ⟨2, 8, 60⟩]
      ⟨10, 7, 100⟩ (by decide)).1,
    (c10_cleanup_keeps_20_most_recent [⟨1, 7, 50⟩, ⟨2, 8, 60⟩]
      ⟨10, 7, 100⟩ (by decide)).2.2.1 ⟨2, 8, 60⟩ (by decide) (by decide)⟩

theorem c5_ping_pong_witness :
    onMessage (ServerMessage.ping "2025-11-25T10:35:00Z") =
      some (ClientMessage.pong "2025-11-25T10:35:00Z") ∧
    onMessage ServerMessage.other = none :=
  ⟨(c5_ping_pong "2025-11-25T10:35:00Z").1,
    (c5_ping_pong "2025-11-25T10:35:00Z").2 ServerMessage.other
      (fun _ h => ServerMessage.noConfusion h)⟩

end SyncClip
